import Mathlib

/-!
Verification of the go-xdom XML parser (src/xdom.go, go-span variant).

Shallow embedding of the tokenize/classify/assemble pipeline of the
`xdom` package.  Byte buffers are `List Nat` (each entry one byte);
Go strings built from byte slices are kept as `List Nat` (Go strings
are byte strings).  Go `int` index arithmetic with the `-1` sentinel
is kept as `Int` where the source uses it.

The first variant in `src/xdom.go` (lines 1-829) imports the external
package `github.com/syntelos/go-span` whose source is not part of this
repository.  Its five operations are modelled from the spec
(section 4.1 "Span Classifier" and 4.3 "Tokenizer"); the repository's
own local copies of the same primitives (`Text.class`, `Text.scan`,
`Text.read` in the second variant of `src/xdom.go`) implement exactly
these semantics and corroborate the model.
-/

/-- Whitespace byte class, from `func ws` in src/xdom.go (CR, LF, TAB, SP);
spec 4.1: "whitespace {space, tab, CR, LF}". Used as `span.WS`. -/
def wsP (ch : Nat) : Bool :=
  ch = 13 || ch = 10 || ch = 9 || ch = 32

/-- Identifier byte class, from `func id` in src/xdom.go (alnum and `_-+.:`);
spec 4.1: "identifier-char {alnum, `_-+.:`}". Used as `span.XI`. -/
def xiP (ch : Nat) : Bool :=
  (97 ≤ ch && ch ≤ 122) || (65 ≤ ch && ch ≤ 90) || (48 ≤ ch && ch ≤ 57) ||
  ch = 95 || ch = 45 || ch = 43 || ch = 46 || ch = 58

/-- Attribute-token byte class, from `func at` in src/xdom.go
(identifier chars plus `=/'"?%!#$()[]*`);
spec 4.1: "attribute-token-char {alnum, punctuation superset including
quotes and XML punctuation}". Used as `span.XA`. -/
def xaP (ch : Nat) : Bool :=
  xiP ch || ch = 61 || ch = 47 || ch = 39 || ch = 34 || ch = 63 ||
  ch = 37 || ch = 33 || ch = 35 || ch = 36 || ch = 40 || ch = 41 ||
  ch = 91 || ch = 93 || ch = 42

/-- Modelled from the spec: `span.Class` of the missing go-span package
(spec 4.1 `classRun`): "returns the index of the last byte (from `start`,
inclusive) for which every byte from `start` through that index satisfies
`predicate`; returns none sentinel (-1) if the byte at `start` itself
fails".  Identical to the repository's own `func (Text) class` in
src/xdom.go. -/
def spanClassA : Nat → List Nat → Nat → Nat → (Nat → Bool) → Int
  | 0, _, _, _, _ => -1
  | n + 1, c, ofs, len, p =>
    if ofs < len ∧ p (c.getD ofs 0) then
      let r := spanClassA n c (ofs + 1) len p
      if r < 0 then (ofs : Int) else r
    else
      -1

/-- Entry point for `spanClassA`: the counter `len - ofs` bounds the scan
exactly as the source loop's `for ; ofs < len; ofs++` does. -/
def spanClass (c : List Nat) (ofs len : Nat) (p : Nat → Bool) : Int :=
  spanClassA (len - ofs) c ofs len p

/-- First index `j` with `ofs ≤ j < len` and `c[j] = ch`, if any, carrying
its bound.  Helper for the scan primitives (spec 4.1 `scanTo` without the
sentinel). -/
def scanFromA : (n : Nat) → (c : List Nat) → (ofs len : Nat) → (ch : Nat) →
    Option { j : Nat // j < len }
  | 0, _, _, _, _ => none
  | n + 1, c, ofs, len, ch =>
    if h : ofs < len then
      if c.getD ofs 0 = ch then some ⟨ofs, h⟩
      else scanFromA n c (ofs + 1) len ch
    else
      none

/-- Entry point for `scanFromA` with the exact counter `len - ofs`. -/
def scanFrom (c : List Nat) (ofs len : Nat) (ch : Nat) :
    Option { j : Nat // j < len } :=
  scanFromA (len - ofs) c ofs len ch

/-- Modelled from the spec: `span.Forward` of the missing go-span package
(spec 4.1 `forwardBalanced` and 4.3): when the byte at `ofs` is `opn`,
scan forward for the matching `cls` ("if the current byte is `<`, scan
forward to the matching `>`"; for quotes "open===close byte, so this
degenerates to next-occurrence scan"), not found giving the `scanTo`
sentinel `ofs` ("no span could be formed"); otherwise scan to the next
`opn` exclusive ("otherwise scan forward to the next `<` (exclusive) to
get a text span"), not found giving `ofs - 1`.  The repository's own
`func (Text) read` in src/xdom.go implements exactly this behaviour for
the `<`/`>` pair.  Go's `-1` results map to `0` under truncated `Nat`
subtraction; every caller only compares the result against a smaller
index, so the two sentinels are indistinguishable. -/
def spanForward (c : List Nat) (ofs len : Nat) (opn cls : Nat) : Nat :=
  if ofs < len ∧ c.getD ofs 0 = opn then
    match scanFrom c (ofs + 1) len cls with
    | some j => j.val
    | none => ofs
  else
    match scanFrom c ofs len opn with
    | some j => j.val - 1
    | none => ofs - 1

/-- Modelled from the spec: `span.First` of the missing go-span package
(spec 4.1 `firstOf`): forward single-byte search, `-1` when absent. -/
def spanFirst (c : List Nat) (ofs len : Nat) (ch : Nat) : Int :=
  match scanFrom c ofs len ch with
  | some j => (j.val : Int)
  | none => -1

/-- Modelled from the spec: `span.Last` of the missing go-span package
(spec 4.1 `lastOf`): backward single-byte search from `ofs` down,
`-1` when absent. -/
def spanLast : (c : List Nat) → (ofs : Nat) → (ch : Nat) → Int
  | c, 0, ch => if c.getD 0 0 = ch then 0 else -1
  | c, ofs + 1, ch =>
    if c.getD (ofs + 1) 0 = ch then ((ofs + 1 : Nat) : Int)
    else spanLast c ofs ch

/-- Go slice `c[a:b]` (spec: "a contiguous byte range referencing part of
the source buffer").  Callers in the source always have `a ≤ b ≤ len`. -/
def goSlice (c : List Nat) (a b : Nat) : List Nat :=
  (c.drop a).take (b - a)

/-! ## Kind (the `Kind uint8` bit-mask enumeration, src/xdom.go lines 45-58) -/

def kindUndefined : Nat := 0
def kindCode : Nat := 128
def kindDocument : Nat := 129
def kindAttribute : Nat := 130
def kindDeclaration : Nat := 132
def kindInstruction : Nat := 133
def kindOpen : Nat := 136
def kindSolitary : Nat := 137
def kindClose : Nat := 138
def kindText : Nat := 16
def kindData : Nat := 17

/-- `func (Kind) IsCode`: `KindCode == (this & KindCode)`. -/
def isCode (k : Nat) : Bool := k &&& kindCode = kindCode

/-- `func (Kind) IsText`: `KindText == (this & KindText)`. -/
def isText (k : Nat) : Bool := k &&& kindText = kindText

/-- `func (Kind) IsBody`: `KindOpen == this & KindOpen`. -/
def isBody (k : Nat) : Bool := k &&& kindOpen = kindOpen

/-- `func (Text) KindOf` (src/xdom.go lines 632-677): classifies a span
by its first and last bytes, then the byte after `<` (`?` instruction,
`!` then `[` data else declaration, `/` close) or the byte before `>`
(`/` solitary, else open); a non-bracketed span is text unless the
whitespace run covers it entirely; everything too short is undefined. -/
def kindOf (c : List Nat) : Nat :=
  let z := c.length
  if 0 < z then
    let y := z - 1
    if 0 < y then
      if c.getD 0 0 = 60 ∧ c.getD y 0 = 62 then
        if 1 < z - 2 then
          match c.getD 1 0 with
          | 63 => kindInstruction
          | 33 =>
            if 2 < z - 2 then
              if c.getD 2 0 = 91 then kindData else kindDeclaration
            else kindUndefined
          | 47 => kindClose
          | _ => if c.getD (z - 2) 0 = 47 then kindSolitary else kindOpen
        else kindUndefined
      else
        let w := spanClass c 0 z wsP
        if w = ((y : Nat) : Int) then kindUndefined else kindText
    else kindUndefined
  else kindUndefined

/-- `func (Text) identifier` (src/xdom.go lines 723-731): longest
identifier-class run from `ofs`, falling back to the whole span. -/
def identifier (c : List Nat) (ofs : Nat) : List Nat :=
  let z := c.length
  let y := spanClass c ofs z xiP
  if (ofs : Int) ≤ y ∧ y ≤ (z : Int) then goSlice c ofs (y.toNat + 1) else c

/-! ## Data model (src/xdom.go lines 60-82) -/

/-- `type Attribute struct { content Text; name string; value string }`. -/
structure Attr where
  content : List Nat
  name : List Nat
  value : List Nat
deriving DecidableEq, Repr

/-- Error values produced by the parser (`errors.New` / `fmt.Errorf` in
src/xdom.go), plus `fuel` standing for non-termination of the embedding's
bounded recursion (never reached with the fuel the entry points supply). -/
inductive PErr where
  | attrEmpty : PErr
  | attrQuote : List Nat → PErr
  | attrSyntax : List Nat → PErr
  | fuel : PErr
deriving DecidableEq, Repr

/-- `type Element struct`/`type Text []byte` as the `Node` interface values
the parser stores in children lists.  `parent` is the non-owning
back-reference (`parent Node`); the parser of this variant never assigns
it, leaving `none` (Go `nil`). -/
inductive Node where
  | element : Option Node → List Nat → List Nat → List Attr → List Node → Node
  | text : List Nat → Node

/-- `type Document struct { source string; content Text; children []Node }`. -/
structure Doc where
  source : String
  content : List Nat
  children : List Node

instance : Inhabited Node := ⟨Node.text []⟩

def Node.contentOf : Node → List Nat
  | .element _ c _ _ _ => c
  | .text c => c

def Node.nameOf : Node → List Nat
  | .element _ _ n _ _ => n
  | .text _ => []

def Node.attrsOf : Node → List Attr
  | .element _ _ _ a _ => a
  | .text _ => []

def Node.childrenOf : Node → List Node
  | .element _ _ _ _ ch => ch
  | .text _ => []

def Node.parentOf : Node → Option Node
  | .element p _ _ _ _ => p
  | .text _ => none

def Node.isTextNode : Node → Bool
  | .element _ _ _ _ _ => false
  | .text _ => true

/-- `func (Element) KindOf`: the element classifies by its content span
(`KindUndefined` when empty); `func (Text) KindOf` for text nodes. -/
def Node.kindNode : Node → Nat
  | .element _ c _ _ _ => kindOf c
  | .text c => kindOf c

/-- `func (Attribute) Read` (src/xdom.go lines 596-631).  A span starting
with `"` must also end with `"` and is stored whole as the value (the
quotes are kept); otherwise the identifier-class run is measured: if it
ends at index 0 or the span has no run, the whole span becomes the value;
if the run covers the whole span, the whole span becomes the name; if the
byte after the run is `=`, the name is the bytes before the `=` and the
value is the SINGLE byte right after the `=` (`string(this.content[y+1])`),
else the syntax error.  `getD`'s 0 default stands for Go's out-of-range
panic on `content[y+1]`; no settled claim evaluates that index out of
range. -/
def attributeRead (c : List Nat) : Except PErr Attr :=
  let z := c.length
  if 0 < z then
    let y0 := z - 1
    if c.getD 0 0 = 34 then
      if c.getD 0 0 = 34 ∧ c.getD y0 0 = 34 then .ok ⟨c, [], c⟩
      else .error (.attrQuote c)
    else
      let y := spanClass c 0 z xiP
      if 0 < y then
        let y1 := y.toNat + 1
        if y1 < z then
          if c.getD y1 0 = 61 then .ok ⟨c, c.take y1, [c.getD (y1 + 1) 0]⟩
          else .error (.attrSyntax c)
        else .ok ⟨c, c, []⟩
      else .ok ⟨c, [], c⟩
  else .error .attrEmpty

/-- The attribute loop of `func (Element) Read` (src/xdom.go lines
348-476): skip a whitespace run (`span.Class` with `WS`), then consume one
attribute span — a quoted span (`"`/`'` through the matching quote via
`span.Forward`), or an identifier run (`span.Class` with `XI`) optionally
extended past `=` by a quoted or bare (`span.Class` with `XA`) value — and
parse it with `Attribute.Read`; stop when no whitespace run or no
attribute span is found.  Returns the attributes and the final cursor.
The fuel bound stands for the loop's unbounded iteration; the entry
points supply more fuel than the cursor can consume. -/
def attrLoop : Nat → List Nat → Nat → List Attr → Except PErr (List Attr × Nat)
  | 0, _, _, _ => .error .fuel
  | f + 1, c, x, acc =>
    let z := c.length
    if x < z then
      let w := spanClass c x z wsP
      if 0 < w then
        let x1 := w.toNat + 1
        if c.getD x1 0 = 34 ∨ c.getD x1 0 = 39 then
          let q := c.getD x1 0
          let y := spanForward c x1 z q q
          if 0 < y then
            match attributeRead (goSlice c x1 (y + 1)) with
            | .error e => .error e
            | .ok a => attrLoop f c (y + 1) (acc ++ [a])
          else .ok (acc, x1)
        else
          let y := spanClass c x1 z xiP
          if 0 < y then
            if c.getD y.toNat 0 = 61 then
              let y2 := y.toNat + 1
              if c.getD y2 0 = 34 ∨ c.getD y2 0 = 39 then
                let q := c.getD y2 0
                let y3 := spanForward c y2 z q q
                if 0 < y3 then
                  match attributeRead (goSlice c x1 (y3 + 1)) with
                  | .error e => .error e
                  | .ok a => attrLoop f c (y3 + 1) (acc ++ [a])
                else .ok (acc, x1)
              else
                let y4 := spanClass c y2 z xaP
                if 0 < y4 then
                  match attributeRead (goSlice c x1 (y4.toNat + 1)) with
                  | .error e => .error e
                  | .ok a => attrLoop f c (y4.toNat + 1) (acc ++ [a])
                else .ok (acc, x1)
            else
              match attributeRead (goSlice c x1 (y.toNat + 1)) with
              | .error e => .error e
              | .ok a => attrLoop f c (y.toNat + 1) (acc ++ [a])
          else .ok (acc, x1)
      else .ok (acc, x)
    else .ok (acc, x)

/-- `func (TextList) Read` (src/xdom.go lines 812-829), the tokenizer loop
from cursor `x`: `span.Forward` with `<`/`>` either delimits a code span
(`<` at the cursor, through the matching `>`) or a text span (up to the
next `<` exclusive); a span is consumed when `first < last`, is kept when
it does not classify `KindUndefined`, and the cursor moves to `last+1`;
otherwise the cursor moves one byte. -/
def textListA : Nat → List Nat → Nat → List (List Nat)
  | 0, _, _ => []
  | n + 1, c, x =>
    let z := c.length
    if x < z then
      let last := spanForward c x z 60 62
      if x < last then
        let t := goSlice c x (last + 1)
        (if kindOf t ≠ kindUndefined then [t] else []) ++
          textListA n c (last + 1)
      else
        textListA n c (x + 1)
    else []

/-- The full tokenizer: `func (TextList) Read` from cursor 0.  The counter
`c.length` bounds the loop exactly: the cursor strictly advances each
iteration (the counter only matters once `x` reaches the length, where
both the counter's 0 case and the loop condition stop the scan). -/
def textListRead (c : List Nat) : List (List Nat) :=
  textListA c.length c 0

/-- The body walk of `func (Element) Read` (src/xdom.go lines 502-541):
each body token either increments the nesting counter and joins the
pending buffer (`Open`), becomes a child immediately (`Solitary` at
counter 0), joins the buffer (`Solitary` nested, `Text`, `Data`), or
joins the buffer and decrements the counter (`Close`), flushing the
buffer into a recursively parsed child when the counter returns to 0.
`childRead` is the recursive `Element.Read` call (src/xdom.go 510, 526). -/
def walkF (childRead : List Nat → Except PErr Node) :
    List (List Nat) → Int → List Nat → List Node → Except PErr (List Node)
  | [], _, _, ch => .ok ch
  | t :: ts, stack, acc, ch =>
    let k := kindOf t
    if k = kindOpen then
      walkF childRead ts (stack + 1) (acc ++ t) ch
    else if k = kindSolitary then
      if stack = 0 then
        match childRead t with
        | .error e => .error e
        | .ok e => walkF childRead ts stack acc (ch ++ [e])
      else walkF childRead ts stack (acc ++ t) ch
    else if k = kindClose then
      let stack1 := stack - 1
      let acc1 := acc ++ t
      if stack1 = 0 then
        match childRead acc1 with
        | .error e => .error e
        | .ok e => walkF childRead ts stack1 [] (ch ++ [e])
      else walkF childRead ts stack1 acc1 ch
    else if k = kindText ∨ k = kindData then
      walkF childRead ts stack (acc ++ t) ch
    else
      walkF childRead ts stack acc ch

/-- The body-location step of `func (Element) Read` (src/xdom.go lines
481-489): for an `Open` element, the body is `content[w:y]` where `w` is
the first `>` at or after the attribute cursor `x` and `y` the last `<`
of the span, guarded by `x < w && w < z` and `x < y && y < z`; when a
guard fails no body is scanned (the claims' "empty body"). -/
def bodySpanAt (c : List Nat) (x : Nat) : List Nat :=
  let z := c.length
  let w := spanFirst c x z 62
  if (x : Int) < w ∧ w < (z : Int) then
    let y := spanLast c (z - 1) 60
    if (x : Int) < y ∧ y < (z : Int) then
      goSlice c w.toNat y.toNat
    else []
  else []

/-- `func (Element) Read` (src/xdom.go lines 322-547): classify the span,
pick the name offset by Kind (2 for declaration/instruction/close, 1 for
open/solitary), read the name as the identifier run, run the attribute
loop for declaration/instruction/open/solitary kinds, and, for `Open`,
tokenize the body span and walk it into children.  Walking the (empty)
token list of the empty body span is identity with the source's skipped
scan when a body guard fails.  The result carries `parent = nil`
(`Element.Read` never assigns `parent`), the input span as content, and
the collected name, attributes and children.  The fuel bound stands for
the source's unbounded recursion into child spans; the entry points
supply more fuel than any child chain can consume.

The name-start offset by Kind (src/xdom.go lines 330-341): 2 for
declaration/instruction/close, 1 for open/solitary, 0 otherwise. -/
def elemNameOffset (c : List Nat) : Nat :=
  let k := kindOf c
  if k = kindDeclaration ∨ k = kindInstruction ∨ k = kindClose then 2
  else if k = kindOpen ∨ k = kindSolitary then 1
  else 0

/-- The name an element's `Read` stores (src/xdom.go line 342). -/
def elemName (c : List Nat) : List Nat :=
  identifier c (elemNameOffset c)

/-- The attribute phase of `func (Element) Read` (src/xdom.go lines
344-477): the attribute loop runs for declaration/instruction/open/
solitary Kinds starting right after the name; other Kinds keep the
cursor there.  Yields the attributes and the final cursor. -/
def elemPrep (c : List Nat) : Except PErr (List Attr × Nat) :=
  let k := kindOf c
  if k = kindDeclaration ∨ k = kindInstruction ∨ k = kindOpen ∨
      k = kindSolitary then
    attrLoop (c.length + 1) c (elemNameOffset c + (elemName c).length) []
  else .ok ([], elemNameOffset c + (elemName c).length)

def elemReadF : Nat → List Nat → Except PErr Node
  | 0, _ => .error .fuel
  | f + 1, c =>
    match elemPrep c with
    | .error e => .error e
    | .ok (attrs, xe) =>
      if kindOf c = kindOpen then
        match walkF (elemReadF f) (textListRead (bodySpanAt c xe)) 0 [] [] with
        | .error e => .error e
        | .ok ch => .ok (.element none c (elemName c) attrs ch)
      else .ok (.element none c (elemName c) attrs [])

/-- The body span an element's `Read` scans, recomputed from the span
alone (the cursor is where the attribute loop stops). -/
def bodySpanOf (c : List Nat) : List Nat :=
  match elemPrep c with
  | .error _ => []
  | .ok (_, xe) => if kindOf c = kindOpen then bodySpanAt c xe else []

/-- `func (Document) Read` (src/xdom.go lines 190-251): tokenize the whole
buffer (`TextList.Read` never fails), then walk the tokens: code tokens
whose Kind has the `Open` bit (`IsBody`) are concatenated into the body
buffer, other code tokens are parsed as head elements and appended as
children; text tokens become children while the body buffer is empty and
join the body buffer afterwards.  Finally the body buffer is parsed as an
element (even when empty) and appended.  No error path exists besides
element construction.  The fuel `content.length + 1` handed to
`elemReadF` exceeds what any chain of strictly shrinking child spans can
consume. -/
def docRead (url : String) (content : List Nat) : Except PErr Doc :=
  let toks := textListRead content
  let fuel := content.length + 1
  let step : List Node × List Nat → List Nat → Except PErr (List Node × List Nat) :=
    fun st t =>
      let k := kindOf t
      if isCode k then
        if isBody k then .ok (st.1, st.2 ++ t)
        else
          match elemReadF fuel t with
          | .error e => .error e
          | .ok e => .ok (st.1 ++ [e], st.2)
      else if isText k then
        if st.2.length = 0 then .ok (st.1 ++ [.text t], st.2)
        else .ok (st.1, st.2 ++ t)
      else .ok st
  match toks.foldlM step ([], []) with
  | .error e => .error e
  | .ok (hd, body) =>
    match elemReadF fuel body with
    | .error e => .error e
    | .ok e => .ok ⟨url, content, hd ++ [e]⟩

/-! ## Depth, child and attribute access -/

/-- The parent-chain walk of `func (Element) Depth` (src/xdom.go lines
304-321): each non-nil ancestor adds one; the walk continues through
ancestors classifying `KindOpen` and stops at the first other ancestor.
(On a `text` parent classifying `KindOpen` the source's type assertion
`p.(Element)` panics; the model stops there instead, and no settled claim
reaches that case.) -/
def depthCount : Option Node → Nat
  | none => 0
  | some (.element p c _ _ _) =>
    if kindOf c = kindOpen then 1 + depthCount p else 1
  | some (.text _) => 1

/-- `func (Element) Depth`: `1` plus the parent-chain count, as the
`uint8` counter computes it (increments wrap modulo 256). -/
def Node.depth : Node → Nat
  | .element p _ _ _ _ => (1 + depthCount p) % 256
  | .text _ => 0

/-- `func (Document) CountChildren`. -/
def Doc.countChildren (d : Doc) : Nat := d.children.length

/-- `func (Document) GetChild` (src/xdom.go lines 154-161): the stored
node below the count, Go `nil` (here `none`) otherwise. -/
def Doc.getChild (d : Doc) (i : Nat) : Option Node :=
  if h : i < d.countChildren then some (d.children.get ⟨i, h⟩) else none

/-- `func (Element) CountChildren`. -/
def Node.countChildrenE (n : Node) : Nat := n.childrenOf.length

/-- `func (Element) GetChild` (src/xdom.go lines 551-558): the stored
node below the count, the zero `Node` (Go `nil`, here `none`) otherwise. -/
def Node.getChildE (n : Node) (i : Nat) : Option Node :=
  if h : i < n.countChildrenE then some (n.childrenOf.get ⟨i, h⟩) else none

/-- `func (Element) CountAttributes`. -/
def Node.countAttributesE (n : Node) : Nat := n.attrsOf.length

/-- `func (Element) GetAttribute` (src/xdom.go lines 562-569): the stored
attribute below the count, the zero `Attribute` otherwise. -/
def Node.getAttributeE (n : Node) (i : Nat) : Attr :=
  if h : i < n.countAttributesE then n.attrsOf.get ⟨i, h⟩ else ⟨[], [], []⟩

/-- One iteration of the tokenizer loop's cursor update (src/xdom.go
lines 814-827): past the consumed span (`x = end`), or one byte. -/
def tokenStep (c : List Nat) (x : Nat) : Nat :=
  let last := spanForward c x c.length 60 62
  if x < last then last + 1 else x + 1

/-- Whether the tokenizer forms a span at cursor `x` (`first < last`). -/
def spanFormed (c : List Nat) (x : Nat) : Prop :=
  x < spanForward c x c.length 60 62

instance (c : List Nat) (x : Nat) : Decidable (spanFormed c x) := by
  unfold spanFormed
  infer_instance

/-- The bytes of an element's children's raw spans, concatenated in
order. -/
def childBytes (n : Node) : List Nat :=
  (n.childrenOf.map Node.contentOf).flatten

/-! ## Concrete inputs of the spec's scenarios (ASCII bytes) -/

/-- Scenario A input: the bytes of the buffer written in XML notation as
open tag `a` with attribute span `x` equals quoted `1`, then solitary tag
`b`, the four letters `text`, and the close tag `a`. -/
def c1Input : List Nat :=
  [60, 97, 32, 120, 61, 34, 49, 34, 62, 60, 98, 47, 62,
   116, 101, 120, 116, 60, 47, 97, 62]

/-- The solitary element `b` the parse of `c1Input` produces. -/
def c1ElemB : Node := .element none [60, 98, 47, 62] [98] [] []

/-- The root element `a` the parse of `c1Input` produces: one attribute
with empty name and value `x`, one child (`c1ElemB`), no text child. -/
def c1ElemA : Node :=
  .element none c1Input [97] [⟨[120], [], [120]⟩] [c1ElemB]

/-- What claim C1 asserts of a parse result, decidably and in its weakest
reading: the parse succeeds and SOME child of the Document is an Element
named `a` carrying exactly one attribute with name `x` and value `1`,
whose children are exactly the two nodes solitary Element `b` (childless)
followed by a Text node holding `text`. -/
def c1ClaimShape (r : Except PErr Doc) : Bool :=
  match r with
  | .error _ => false
  | .ok d =>
    d.children.any fun root =>
      !root.isTextNode && root.nameOf = [97] &&
      (root.attrsOf.map Attr.name) = [[120]] &&
      (root.attrsOf.map Attr.value) = [[49]] &&
      match root.childrenOf with
      | [b, t] =>
        !b.isTextNode && b.nameOf = [98] && kindOf b.contentOf = kindSolitary &&
        b.childrenOf.length = 0 && t.isTextNode &&
        t.contentOf = [116, 101, 120, 116]
      | _ => false

/-- Scenario C input: the bytes of open tag `a`, open tag `b`, close
tag `a` (unbalanced). -/
def c2Input : List Nat := [60, 97, 62, 60, 98, 62, 60, 47, 97, 62]

/-- Round-trip counterexample input: open tag `a` with attribute `x` and
a stray `?` before the closing bracket, the letters `hi`, close tag `a`. -/
def c4Input : List Nat :=
  [60, 97, 32, 120, 32, 63, 62, 104, 105, 60, 47, 97, 62]

/-- The element the parse of `c4Input` produces: no children at all. -/
def c4Elem : Node :=
  .element none c4Input [97] [⟨[120], [], [120]⟩] []

/-- Witness input for the amended round-trip: open tag `a` with attribute
`x` and a stray `?`, a nested open/close pair `bc`, a stray letter `w`,
close tag `a`. -/
def c4WitInput : List Nat :=
  [60, 97, 32, 120, 32, 63, 62, 60, 98, 99, 62, 60, 47, 98, 99, 62,
   119, 60, 47, 97, 62]

/-- Attribute-parser counterexample input: the bytes of `xy` equals
double-quoted `1`. -/
def c5Input : List Nat := [120, 121, 61, 34, 49, 34]

/-- The value `Attribute.Read` stores for a span, empty on error. -/
def attrValueAt (c : List Nat) : List Nat :=
  match attributeRead c with
  | .ok a => a.value
  | .error _ => []

/-- The name `Attribute.Read` stores for a span, empty on error. -/
def attrNameAt (c : List Nat) : List Nat :=
  match attributeRead c with
  | .ok a => a.name
  | .error _ => []

/-- Whether a parse result is an error (Go: a non-nil `error` return). -/
def isErr (r : Except PErr Doc) : Bool :=
  match r with
  | .ok _ => false
  | .error _ => true

/-- The bytes of a list of nodes' raw spans, concatenated in order. -/
def nodesBytes (l : List Node) : List Nat :=
  (l.map Node.contentOf).flatten

/-- The element the parse of `c4WitInput` produces: attribute `x` (empty
name), one child — the element parsed from the accumulated span of the
nested `bc` open/close pair. -/
def c4WitElem : Node :=
  .element none c4WitInput [97] [⟨[120], [], [120]⟩]
    [.element none [60, 98, 99, 62, 60, 47, 98, 99, 62] [98, 99] [] []]

/-! ## Helper lemmas -/

theorem spanClass_eq (c : List Nat) (ofs len : Nat) (p : Nat → Bool) :
    spanClass c ofs len p =
      if ofs < len ∧ p (c.getD ofs 0) then
        (if spanClass c (ofs + 1) len p < 0 then (ofs : Int)
         else spanClass c (ofs + 1) len p)
      else -1 := by
  rcases Nat.lt_or_ge ofs len with h | h
  · have hn : len - ofs = (len - (ofs + 1)) + 1 := by omega
    rw [spanClass, hn]
    simp only [spanClassA, spanClass]
  · have hn : len - ofs = 0 := by omega
    rw [spanClass, hn]
    simp only [spanClassA]
    rw [if_neg]
    rintro ⟨h1, _⟩
    omega

theorem spanClass_bounds (c : List Nat) (len : Nat) (p : Nat → Bool) :
    ∀ ofs, spanClass c ofs len p = -1 ∨
      ((ofs : Int) ≤ spanClass c ofs len p ∧ spanClass c ofs len p < (len : Int)) := by
  suffices hs : ∀ n ofs, len - ofs ≤ n → spanClass c ofs len p = -1 ∨
      ((ofs : Int) ≤ spanClass c ofs len p ∧ spanClass c ofs len p < (len : Int)) by
    intro ofs
    exact hs (len - ofs) ofs (le_refl _)
  intro n
  induction n with
  | zero =>
    intro ofs hd
    rw [spanClass_eq, if_neg]
    · left
      rfl
    · rintro ⟨h1, _⟩
      omega
  | succ n ih =>
    intro ofs hd
    by_cases hg : ofs < len
    · rw [spanClass_eq]
      by_cases hp : p (c.getD ofs 0)
      · simp only [hg, hp, and_true, true_and, if_pos]
        by_cases hr : spanClass c (ofs + 1) len p < 0
        · simp only [hr, if_pos]
          right
          refine ⟨le_refl _, ?_⟩
          exact_mod_cast hg
        · simp only [hr, if_neg]
          rcases ih (ofs + 1) (by omega) with h | ⟨h1, h2⟩
          · omega
          · right
            exact ⟨by omega, h2⟩
      · rw [if_neg]
        · left
          rfl
        · rintro ⟨_, h2⟩
          exact hp h2
    · rw [spanClass_eq, if_neg]
      · left
        rfl
      · rintro ⟨h1, _⟩
        omega

theorem spanClass_all (c : List Nat) (len : Nat) (p : Nat → Bool) :
    ∀ ofs, ofs < len →
      (spanClass c ofs len p = (len : Int) - 1 ↔
        ∀ j, ofs ≤ j → j < len → p (c.getD j 0) = true) := by
  suffices hs : ∀ n ofs, ofs < len → len - ofs ≤ n →
      (spanClass c ofs len p = (len : Int) - 1 ↔
        ∀ j, ofs ≤ j → j < len → p (c.getD j 0) = true) by
    intro ofs hg
    exact hs (len - ofs) ofs hg (le_refl _)
  intro n
  induction n with
  | zero =>
    intro ofs hg hd
    omega
  | succ n ih =>
    intro ofs hg hd
    rw [spanClass_eq]
    by_cases hp : p (c.getD ofs 0)
    · simp only [hg, hp, and_true, true_and, if_pos]
      by_cases hg2 : ofs + 1 < len
      · have hiff := ih (ofs + 1) hg2 (by omega)
        by_cases hr : spanClass c (ofs + 1) len p < 0
        · simp only [hr, if_pos]
          constructor
          · intro he
            omega
          · intro hall
            exfalso
            rw [hiff.mpr (fun j hj1 hj2 => hall j (by omega) hj2)] at hr
            omega
        · rw [if_neg hr, hiff]
          constructor
          · intro hall j hj1 hj2
            rcases Nat.eq_or_lt_of_le hj1 with rfl | hlt
            · exact hp
            · exact hall j (by omega) hj2
          · intro hall j hj1 hj2
            exact hall j (by omega) hj2
      · have hofs : ofs = len - 1 := by omega
        have hr : spanClass c (ofs + 1) len p = -1 := by
          rw [spanClass_eq, if_neg]
          rintro ⟨h1, _⟩
          omega
        rw [hr, if_pos (show (-1 : Int) < 0 by omega)]
        constructor
        · intro he j hj1 hj2
          have hj : j = ofs := by omega
          rw [hj]
          exact hp
        · intro _
          omega
    · rw [if_neg]
      · constructor
        · intro he
          omega
        · intro hall
          exact absurd (hall ofs (le_refl ofs) hg) hp
      · rintro ⟨_, h2⟩
        exact hp h2

theorem spanClass_run (c : List Nat) (len : Nat) (p : Nat → Bool) :
    ∀ m ofs, 0 < m →
      (∀ j, ofs ≤ j → j < ofs + m → p (c.getD j 0) = true) →
      ofs + m < len → p (c.getD (ofs + m) 0) = false →
      spanClass c ofs len p = ((ofs + m - 1 : Nat) : Int) := by
  intro m
  induction m with
  | zero => omega
  | succ m ih =>
    intro ofs _ hrun hlt hstop
    rw [spanClass_eq]
    have hp : p (c.getD ofs 0) = true := hrun ofs (le_refl ofs) (by omega)
    simp only [show ofs < len by omega, hp, and_true, if_pos]
    rcases Nat.eq_zero_or_pos m with rfl | hm
    · have hr : spanClass c (ofs + 1) len p = -1 := by
        rw [spanClass_eq, if_neg]
        rintro ⟨_, h2⟩
        have : ofs + 1 = ofs + 0 + 1 := by omega
        rw [show ofs + 1 = ofs + 0 + 1 by omega] at h2
        rw [hstop] at h2
        exact Bool.false_ne_true h2
      rw [hr]
      norm_num
    · have hr := ih (ofs + 1) hm
        (fun j hj1 hj2 => hrun j (by omega) (by omega))
        (by omega) (by rw [show ofs + 1 + m = ofs + (m + 1) by omega]; exact hstop)
      rw [hr]
      have : ¬ (((ofs + 1 + m - 1 : Nat) : Int) < 0) := by omega
      rw [if_neg this]
      congr 1
      omega

theorem getD_append_lt (l1 l2 : List Nat) (j : Nat) (h : j < l1.length) :
    (l1 ++ l2).getD j 0 = l1.getD j 0 := by
  induction l1 generalizing j with
  | nil => simp at h
  | cons a t ih =>
    cases j with
    | zero => rfl
    | succ j =>
      simp only [List.cons_append, List.getD_cons_succ]
      exact ih j (by simpa using h)

theorem getD_append_ge (l1 l2 : List Nat) (j : Nat) (h : l1.length ≤ j) :
    (l1 ++ l2).getD j 0 = l2.getD (j - l1.length) 0 := by
  induction l1 generalizing j with
  | nil => simp
  | cons a t ih =>
    cases j with
    | zero => simp at h
    | succ j =>
      simp only [List.cons_append, List.getD_cons_succ]
      rw [ih j (by simpa using h)]
      congr 1
      simp only [List.length_cons]
      omega

theorem take_append_self (l1 l2 : List Nat) : (l1 ++ l2).take l1.length = l1 := by
  induction l1 with
  | nil => simp
  | cons a t ih => simp [ih]

theorem forall_getD_iff_all (l : List Nat) (p : Nat → Bool) :
    (∀ j, j < l.length → p (l.getD j 0) = true) ↔ l.all p = true := by
  rw [List.all_eq_true]
  constructor
  · intro h x hx
    rcases List.mem_iff_getElem.mp hx with ⟨i, hi, rfl⟩
    have hh := h i hi
    rwa [List.getD_eq_getElem l 0 hi] at hh
  · intro h j hj
    apply h
    rw [List.getD_eq_getElem l 0 hj]
    exact List.getElem_mem hj

/-! ## Claim C1 (corrected) -/

/-- C1 counterexample: on the buffer of Scenario A (`c1Input`, the open
tag `a` with the attribute span rendering `x` equals quoted `1`, solitary
`b`, the text `text`, close tag `a`), the parse does NOT produce the
claimed shape: the single attribute's name is empty and its value is `x`
(not name `x`, value `1`), and the root has one child (solitary `b`),
not two — the text child is missing. -/
theorem c1_claim_false : c1ClaimShape (docRead "u" c1Input) = false := rfl

/-- C1 amended: `Document.Read` on `c1Input` succeeds with a single body
child: the Element named `a` whose content is the whole buffer, carrying
exactly one attribute with EMPTY name and value `x` (the attribute
scanner stops its identifier run at the `=`, hands only the span `x` to
`Attribute.Read`, which stores a one-byte span reaching `Attribute.Read`
wholly as the value), and exactly ONE child: the childless solitary
Element named `b`.  The body text `text` follows the last `<`-to-`>`
code span of the element body and is dropped by the tokenizer. -/
theorem c1_amended_parse (url : String) :
    docRead url c1Input = .ok ⟨url, c1Input, [c1ElemA]⟩ := rfl

/-! ## Claim C2 (code_bug) -/

/-- C2: on the unbalanced Scenario C buffer `c2Input` (open `a`, open
`b`, close `a`), `Document.Read` does NOT fail: it returns a nil error
and a Document with one child.  (The three-byte spans rendering as open
tags `a` and `b` classify `KindUndefined` and are dropped by the
tokenizer, so the body reduces to the close tag, which is parsed as a
childless element named `a` of Kind `Close`.)  No `UnbalancedTag` error
exists anywhere in the source; the spec itself records that "the original
did not explicitly surface" this error. -/
theorem c2_unbalanced_no_error (url : String) :
    docRead url c2Input =
      .ok ⟨url, c2Input, [.element none [60, 47, 97, 62] [97] [] []]⟩ := rfl

/-! ## Claim C3 (corrected) -/

/-- C3 counterexample: `Document.Read` on the empty buffer does not
return an error — `TextList.Read` has no failure path at all (its only
return is `this, nil`), so the claimed `EmptyInput`/ParseError does not
exist. -/
theorem c3_claim_false : isErr (docRead "u" []) = false := rfl

/-- C3 amended: on the empty buffer `Document.Read` returns a nil error
and a Document whose single child is the Element produced by parsing the
empty body buffer: empty content (Kind `Undefined`), empty name, no
attributes, no children. -/
theorem c3_empty_parse (url : String) :
    docRead url [] = .ok ⟨url, [], [.element none [] [] [] []]⟩ := rfl

/-! ## Claim C7 (confirmed) -/

/-- C7: for an Element `e` whose stored parent `p` is an Element
classifying `KindOpen`, `Depth(e) = Depth(p) + 1`, in the `uint8`
arithmetic of the source (both sides reduced modulo 256; the counter `c`
is a `uint8`). -/
theorem c7_depth_parent (pp : Option Node) (pc pn : List Nat)
    (pa : List Attr) (pch : List Node) (ec en : List Nat) (ea : List Attr)
    (ech : List Node) (hopen : kindOf pc = kindOpen) :
    Node.depth (.element (some (.element pp pc pn pa pch)) ec en ea ech) =
      (Node.depth (.element pp pc pn pa pch) + 1) % 256 := by
  simp only [Node.depth, depthCount, hopen, if_pos]
  omega

/-- C7 witness: a concrete two-element chain whose parent span renders as
the open tag `pq`. -/
theorem c7_depth_parent_witness :
    Node.depth (.element (some (.element none [60, 112, 113, 62] [] [] []))
        [] [] [] []) =
      (Node.depth (.element none [60, 112, 113, 62] [] [] []) + 1) % 256 :=
  c7_depth_parent none [60, 112, 113, 62] [] [] [] [] [] [] [] (by decide)

/-! ## Claim C9 (confirmed) -/

/-- C9: parsing is deterministic and pure — two runs of `Document.Read`
on the same source string and buffer yield equal results, the same
Document on success and the same error value on failure; the embedding is
a function of exactly these two arguments, so any two results coincide. -/
theorem c9_deterministic (url : String) (c : List Nat)
    (r1 r2 : Except PErr Doc) (h1 : docRead url c = r1)
    (h2 : docRead url c = r2) : r1 = r2 := by
  rw [← h1, ← h2]

/-- C9 witness at the Scenario A buffer. -/
theorem c9_deterministic_witness :
    docRead "u" c1Input = docRead "u" c1Input :=
  c9_deterministic "u" c1Input _ _ rfl rfl

/-! ## Claim C10 (confirmed) -/

/-- C10: child and attribute lookup is total at the public interface:
`Document.GetChild`, `Element.GetChild` and `Element.GetAttribute`
return the stored entry for every index below the corresponding count,
and Go `nil` (here `none`) respectively the zero `Attribute` for every
index at or above it — never a panic. -/
theorem c10_lookup_total (d : Doc) (nd : Node) (i : Nat) :
    (d.countChildren ≤ i → d.getChild i = none) ∧
    (∀ h : i < d.countChildren, d.getChild i = some (d.children.get ⟨i, h⟩)) ∧
    (nd.countChildrenE ≤ i → nd.getChildE i = none) ∧
    (∀ h : i < nd.countChildrenE,
      nd.getChildE i = some (nd.childrenOf.get ⟨i, h⟩)) ∧
    (nd.countAttributesE ≤ i → nd.getAttributeE i = ⟨[], [], []⟩) ∧
    (∀ h : i < nd.countAttributesE, nd.getAttributeE i = nd.attrsOf.get ⟨i, h⟩) := by
  refine ⟨?_, ?_, ?_, ?_, ?_, ?_⟩
  · intro h
    rw [Doc.getChild, dif_neg]
    omega
  · intro h
    rw [Doc.getChild, dif_pos h]
  · intro h
    rw [Node.getChildE, dif_neg]
    omega
  · intro h
    rw [Node.getChildE, dif_pos h]
  · intro h
    rw [Node.getAttributeE, dif_neg]
    omega
  · intro h
    rw [Node.getAttributeE, dif_pos h]

/-- C10 witness: out-of-range lookups on a childless Document and a
childless, attribute-less Element return the nil/zero results. -/
theorem c10_lookup_total_witness :
    (Doc.getChild ⟨"u", [], []⟩ 3 = none) ∧
    (Node.getChildE (.element none [] [] [] []) 3 = none) ∧
    (Node.getAttributeE (.element none [] [] [] []) 3 = ⟨[], [], []⟩) :=
  ⟨(c10_lookup_total ⟨"u", [], []⟩ (.element none [] [] [] []) 3).1 (by decide),
   (c10_lookup_total ⟨"u", [], []⟩ (.element none [] [] [] []) 3).2.2.1 (by decide),
   (c10_lookup_total ⟨"u", [], []⟩ (.element none [] [] [] []) 3).2.2.2.2.1 (by decide)⟩

/-! ## Claim C5 (corrected) -/

/-- C5 counterexample: on the attribute span `c5Input` (the bytes of `xy`
followed by `=` and the double-quoted digit `1`), the stored value is the
single byte 34 (the opening quote), not the quote-stripped remainder `1`:
`Attribute.Read` stores `string(this.content[y+1])`, one byte, and never
strips quotes. -/
theorem c5_claim_false :
    attrNameAt c5Input = [120, 121] ∧ attrValueAt c5Input = [34] ∧
      [34] ≠ [49] := by
  refine ⟨rfl, rfl, ?_⟩
  decide

/-- C5 amended: for an attribute span of the form name `=` value whose
name part is an identifier run of at least two bytes, `Attribute.Read`
stores the run before the `=` as the name and the SINGLE byte immediately
after the `=` as the value, with no quote stripping (for a quoted value
that byte is the opening quote itself).  (A one-byte name fails the
source's `0 < y` test on the run's last index and the whole span becomes
the value instead.) -/
theorem c5_amended_split (nm : List Nat) (v : Nat) (rest : List Nat)
    (hlen : 2 ≤ nm.length) (hxi : ∀ b ∈ nm, xiP b = true) :
    attributeRead (nm ++ 61 :: v :: rest) =
      .ok ⟨nm ++ 61 :: v :: rest, nm, [v]⟩ := by
  have hz : (nm ++ 61 :: v :: rest).length = nm.length + (2 + rest.length) := by
    simp [List.length_append]
    omega
  have hmem : ∀ j, j < nm.length → xiP (nm.getD j 0) = true := by
    intro j hj
    apply hxi
    rw [List.getD_eq_getElem nm 0 hj]
    exact List.getElem_mem hj
  have hrun : spanClass (nm ++ 61 :: v :: rest) 0
      (nm ++ 61 :: v :: rest).length xiP = ((nm.length - 1 : Nat) : Int) := by
    have hstep := spanClass_run (nm ++ 61 :: v :: rest)
      (nm ++ 61 :: v :: rest).length xiP nm.length 0 (by omega)
      (fun j hj1 hj2 => by
        rw [getD_append_lt nm (61 :: v :: rest) j (by omega)]
        exact hmem j (by omega))
      (by omega)
      (by
        rw [getD_append_ge nm (61 :: v :: rest) (0 + nm.length) (by omega),
          show 0 + nm.length - nm.length = 0 by omega, List.getD_cons_zero]
        decide)
    simpa using hstep
  have h0 : (nm ++ 61 :: v :: rest).getD 0 0 = nm.getD 0 0 :=
    getD_append_lt nm (61 :: v :: rest) 0 (by omega)
  have h0ne : ¬ (nm ++ 61 :: v :: rest).getD 0 0 = 34 := by
    rw [h0]
    intro he
    have hx := hmem 0 (by omega)
    rw [he] at hx
    exact absurd hx (by decide)
  simp only [attributeRead, hrun]
  rw [if_pos (by omega), if_neg h0ne, if_pos (by omega)]
  have htn : ((nm.length - 1 : Nat) : Int).toNat + 1 = nm.length := by
    omega
  rw [htn, if_pos (by omega),
    if_pos (by
      rw [getD_append_ge nm (61 :: v :: rest) nm.length (le_refl _)]
      simp)]
  have hv : (nm ++ 61 :: v :: rest).getD (nm.length + 1) 0 = v := by
    rw [getD_append_ge nm (61 :: v :: rest) (nm.length + 1) (by omega)]
    simp
  rw [hv, take_append_self]

/-- C5 witness: the amended split at the concrete span `xy="1"`
(`c5Input`): name `xy`, value the single byte 34. -/
theorem c5_amended_split_witness :
    attributeRead ([120, 121] ++ 61 :: 34 :: [49, 34]) =
      .ok ⟨[120, 121] ++ 61 :: 34 :: [49, 34], [120, 121], [34]⟩ :=
  c5_amended_split [120, 121] 34 [49, 34] (by decide) (by decide)

/-! ## Claim C6 (corrected) -/

/-- C6 counterexample: the one-byte span holding the letter `t` is
non-empty, contains a non-whitespace byte and is not bracket-delimited,
so the claim requires Kind `Text`; `Text.KindOf` classifies it
`KindUndefined` (its `x < y` length test fails for spans shorter than
two bytes). -/
theorem c6_claim_false :
    kindOf [116] = kindUndefined ∧ kindUndefined ≠ kindText := by
  refine ⟨rfl, ?_⟩
  decide

/-- C6 amended: for spans of length at least TWO whose first and last
bytes are not the `<`/`>` bracket pair, `Text.KindOf` classifies `Text`
unless every byte is whitespace, in which case `Undefined` (and the
tokenizer drops the span); spans shorter than two bytes are always
`Undefined`, even a single non-whitespace byte. -/
theorem c6_text_or_undefined (s : List Nat) (hl : 2 ≤ s.length)
    (hb : ¬(s.getD 0 0 = 60 ∧ s.getD (s.length - 1) 0 = 62)) :
    kindOf s = if s.all (fun b => wsP b) then kindUndefined else kindText := by
  have hall := spanClass_all s s.length wsP 0 (by omega)
  have hiff : (spanClass s 0 s.length wsP = ((s.length - 1 : Nat) : Int)) ↔
      s.all (fun b => wsP b) = true := by
    rw [show ((s.length - 1 : Nat) : Int) = (s.length : Int) - 1 by omega, hall]
    rw [← forall_getD_iff_all]
    constructor
    · intro h j hj
      exact h j (by omega) hj
    · intro h j _ hj
      exact h j hj
  rw [kindOf]
  simp only
  rw [if_pos (by omega), if_pos (by omega), if_neg hb]
  by_cases hws : s.all (fun b => wsP b) = true
  · rw [if_pos (hiff.mpr hws), if_pos hws]
  · rw [if_neg (fun he => hws (hiff.mp he)), if_neg hws]

/-- C6 witness: the two-byte span `ab` is not bracketed and not all
whitespace, so it classifies `Text`. -/
theorem c6_text_or_undefined_witness :
    kindOf [97, 98] =
      if [97, 98].all (fun b => wsP b) then kindUndefined else kindText :=
  c6_text_or_undefined [97, 98] (by decide) (by decide)

/-! ## Claim C8 (confirmed) -/

/-- C8: the tokenizer terminates on every input: at each loop iteration
with the cursor inside the buffer, the cursor strictly advances — to one
past the consumed span when a span is formed (`first < last`), and by
exactly one byte otherwise — and the loop body of `TextList.Read`
(`textListA`) factors through exactly this step, emitting the span when
it is formed and classifiable. -/
theorem c8_cursor_advance (c : List Nat) (x n : Nat) (h : x < c.length) :
    x < tokenStep c x ∧
    (spanFormed c x → tokenStep c x = spanForward c x c.length 60 62 + 1) ∧
    (¬ spanFormed c x → tokenStep c x = x + 1) ∧
    textListA (n + 1) c x =
      (if spanFormed c x then
        (if kindOf (goSlice c x (spanForward c x c.length 60 62 + 1)) ≠
            kindUndefined
         then [goSlice c x (spanForward c x c.length 60 62 + 1)] else [])
       else []) ++ textListA n c (tokenStep c x) := by
  refine ⟨?_, ?_, ?_, ?_⟩
  · simp only [tokenStep]
    split
    · omega
    · omega
  · intro hf
    unfold spanFormed at hf
    simp only [tokenStep]
    rw [if_pos hf]
  · intro hn
    unfold spanFormed at hn
    simp only [tokenStep]
    rw [if_neg hn]
  · by_cases hf : x < spanForward c x c.length 60 62
    · conv_lhs => rw [textListA]
      simp only
      rw [if_pos h, if_pos hf, if_pos (show spanFormed c x from hf)]
      simp only [tokenStep]
      rw [if_pos hf]
    · conv_lhs => rw [textListA]
      simp only
      rw [if_pos h, if_neg hf, if_neg (show ¬ spanFormed c x from hf)]
      simp only [tokenStep]
      rw [if_neg hf]
      rw [List.nil_append]

/-- C8 witness: the step at cursor 0 of the Scenario A buffer. -/
theorem c8_cursor_advance_witness :
    0 < tokenStep c1Input 0 ∧
    (spanFormed c1Input 0 →
      tokenStep c1Input 0 = spanForward c1Input 0 c1Input.length 60 62 + 1) ∧
    (¬ spanFormed c1Input 0 → tokenStep c1Input 0 = 0 + 1) ∧
    textListA (20 + 1) c1Input 0 =
      (if spanFormed c1Input 0 then
        (if kindOf (goSlice c1Input 0
              (spanForward c1Input 0 c1Input.length 60 62 + 1)) ≠
            kindUndefined
         then [goSlice c1Input 0
            (spanForward c1Input 0 c1Input.length 60 62 + 1)] else [])
       else []) ++ textListA 20 c1Input (tokenStep c1Input 0) :=
  c8_cursor_advance c1Input 0 20 (by decide)

/-! ## Claim C4 (corrected) -/

theorem tokens_flatten_sublist (c : List Nat) :
    ∀ n x, List.Sublist (textListA n c x).flatten (c.drop x) := by
  intro n
  induction n with
  | zero =>
    intro x
    exact List.nil_sublist _
  | succ n ih =>
    intro x
    rw [textListA]
    simp only
    by_cases h : x < c.length
    · rw [if_pos h]
      by_cases hf : x < spanForward c x c.length 60 62
      · rw [if_pos hf]
        have hrest : List.Sublist (textListA n c (spanForward c x c.length 60 62 + 1)).flatten
            ((c.drop x).drop (spanForward c x c.length 60 62 + 1 - x)) := by
          rw [List.drop_drop, show x + (spanForward c x c.length 60 62 + 1 - x) =
            spanForward c x c.length 60 62 + 1 by omega]
          exact ih _
        by_cases hk : kindOf (goSlice c x (spanForward c x c.length 60 62 + 1)) ≠ kindUndefined
        · rw [if_pos hk]
          rw [List.flatten_append]
          simp only [List.flatten, List.append_nil]
          conv_rhs => rw [← List.take_append_drop
            (spanForward c x c.length 60 62 + 1 - x) (c.drop x)]
          exact List.Sublist.append (by rw [goSlice]) hrest
        · rw [if_neg hk]
          simp only [List.nil_append]
          exact hrest.trans (List.drop_sublist _ _)
      · rw [if_neg hf]
        have hrest : List.Sublist (textListA n c (x + 1)).flatten
            ((c.drop x).drop 1) := by
          rw [List.drop_drop, show x + 1 = x + 1 by omega]
          exact ih _
        exact hrest.trans (List.drop_sublist _ _)
    · rw [if_neg h]
      exact List.nil_sublist _


theorem ofList_append (l1 l2 : List Nat) :
    Multiset.ofList (l1 ++ l2) = Multiset.ofList l1 + Multiset.ofList l2 :=
  Multiset.coe_add l1 l2

theorem nodesBytes_append_one (ch : List Node) (e : Node) :
    nodesBytes (ch ++ [e]) = nodesBytes ch ++ e.contentOf := by
  rw [nodesBytes, nodesBytes, List.map_append, List.flatten_append]
  simp

theorem walk_bytes (cr : List Nat → Except PErr Node)
    (hcr : ∀ t e, cr t = .ok e → e.contentOf = t) :
    ∀ (toks : List (List Nat)) (stack : Int) (acc : List Nat)
      (ch res : List Node), walkF cr toks stack acc ch = .ok res →
      Multiset.ofList (nodesBytes res) ≤
        Multiset.ofList (nodesBytes ch) + Multiset.ofList acc +
          Multiset.ofList toks.flatten := by
  intro toks
  induction toks with
  | nil =>
    intro stack acc ch res hw
    rw [walkF] at hw
    injection hw with hw
    subst hw
    exact le_add_right (le_add_right (le_refl _))
  | cons t ts ih =>
    intro stack acc ch res hw
    rw [walkF] at hw
    simp only at hw
    have hflat : Multiset.ofList ((t :: ts).flatten) =
        Multiset.ofList t + Multiset.ofList ts.flatten := by
      rw [List.flatten_cons, ofList_append]
    rw [hflat]
    by_cases h1 : kindOf t = kindOpen
    · rw [if_pos h1] at hw
      refine le_trans (ih _ _ _ _ hw) (le_of_eq ?_)
      rw [ofList_append]
      abel
    · rw [if_neg h1] at hw
      by_cases h2 : kindOf t = kindSolitary
      · rw [if_pos h2] at hw
        by_cases hs : stack = 0
        · rw [if_pos hs] at hw
          rcases hcrt : cr t with er | e
          all_goals rw [hcrt] at hw
          · exact absurd hw (by simp)
          · refine le_trans (ih _ _ _ _ hw) (le_of_eq ?_)
            rw [nodesBytes_append_one, hcr t e hcrt, ofList_append]
            abel
        · rw [if_neg hs] at hw
          refine le_trans (ih _ _ _ _ hw) (le_of_eq ?_)
          rw [ofList_append]
          abel
      · rw [if_neg h2] at hw
        by_cases h3 : kindOf t = kindClose
        · rw [if_pos h3] at hw
          by_cases hs : stack - 1 = 0
          · rw [if_pos hs] at hw
            rcases hcrt : cr (acc ++ t) with er | e
            all_goals rw [hcrt] at hw
            · exact absurd hw (by simp)
            · refine le_trans (ih _ _ _ _ hw) (le_of_eq ?_)
              rw [nodesBytes_append_one, hcr _ e hcrt, ofList_append,
                ofList_append]
              simp only [Multiset.coe_nil]
              abel
          · rw [if_neg hs] at hw
            refine le_trans (ih _ _ _ _ hw) (le_of_eq ?_)
            rw [ofList_append]
            abel
        · rw [if_neg h3] at hw
          by_cases h4 : kindOf t = kindText ∨ kindOf t = kindData
          · rw [if_pos h4] at hw
            refine le_trans (ih _ _ _ _ hw) (le_of_eq ?_)
            rw [ofList_append]
            abel
          · rw [if_neg h4] at hw
            refine le_trans (ih _ _ _ _ hw) ?_
            rw [add_assoc, add_assoc]
            refine add_le_add_left (add_le_add_left ?_ _) _
            exact Multiset.le_add_left _ _

theorem elemReadF_content :
    ∀ fuel c e, elemReadF fuel c = .ok e → e.contentOf = c := by
  intro fuel c e h
  cases fuel with
  | zero => exact absurd h (by simp [elemReadF])
  | succ f =>
    rw [elemReadF] at h
    rcases har : elemPrep c with er | ⟨attrs, xe⟩
    all_goals rw [har] at h
    · exact absurd h (by simp)
    · dsimp only at h
      by_cases hk : kindOf c = kindOpen
      · rw [if_pos hk] at h
        rcases hwa : walkF (elemReadF f) (textListRead (bodySpanAt c xe)) 0 [] []
          with er2 | ch
        all_goals rw [hwa] at h
        · exact absurd h (by simp)
        · injection h with h
          subst h
          rfl
      · rw [if_neg hk] at h
        injection h with h
        subst h
        rfl

/-- C4 counterexample: on the Open span `c4Input` (open tag `a` with
attribute `x` and a stray `?`, body `hi`, close tag `a`), `Element.Read`
succeeds with NO children, so the concatenation of the children's raw
spans is empty while the element's body between the open tag's closing
`>` (index 6) and the close tag's `<` (index 9) is the two bytes `hi` —
those body bytes are dropped, refuting "no byte of the body is
dropped". -/
theorem c4_claim_false :
    kindOf c4Input = kindOpen ∧
      elemReadF (c4Input.length + 1) c4Input = .ok c4Elem ∧
      childBytes c4Elem = [] ∧ goSlice c4Input 7 9 = [104, 105] ∧
      ([] : List Nat) ≠ [104, 105] := by
  refine ⟨rfl, rfl, rfl, rfl, ?_⟩
  decide

/-- C4 amended: for every Element successfully parsed from a span, the
multiset of bytes of its children's raw content spans is contained in
the multiset of bytes of the element's body span (the span `content[w:y]`
from the first `>` after the attribute list through the final `<`):
no byte of the body is duplicated into the children, though body bytes
may be dropped (text runs not closing a nesting group, spans the
tokenizer skips) and may appear reordered between children. -/
theorem c4_children_bytes (fuel : Nat) (c : List Nat) (e : Node)
    (h : elemReadF fuel c = .ok e) :
    Multiset.ofList (childBytes e) ≤ Multiset.ofList (bodySpanOf c) := by
  cases fuel with
  | zero => exact absurd h (by simp [elemReadF])
  | succ f =>
    rw [elemReadF] at h
    rw [bodySpanOf]
    rcases har : elemPrep c with er | ⟨attrs, xe⟩
    all_goals rw [har] at h
    · exact absurd h (by simp)
    · dsimp only at h ⊢
      by_cases hk : kindOf c = kindOpen
      · rw [if_pos hk] at h
        rw [if_pos hk]
        rcases hwa : walkF (elemReadF f) (textListRead (bodySpanAt c xe)) 0 [] []
          with er2 | ch
        all_goals rw [hwa] at h
        · exact absurd h (by simp)
        · injection h with h
          subst h
          have hw := walk_bytes (elemReadF f) (elemReadF_content f) _ _ _ _ _ hwa
          have hch : childBytes (.element none c (elemName c) attrs ch) =
              nodesBytes ch := rfl
          rw [hch]
          refine le_trans hw ?_
          have hz : Multiset.ofList (nodesBytes ([] : List Node)) = 0 := rfl
          have hz2 : Multiset.ofList ([] : List Nat) = 0 := rfl
          rw [hz, hz2, zero_add, zero_add]
          have hsub := tokens_flatten_sublist (bodySpanAt c xe)
            (bodySpanAt c xe).length 0
          rw [List.drop_zero] at hsub
          rw [Multiset.coe_le]
          exact List.Sublist.subperm hsub
      · rw [if_neg hk] at h
        injection h with h
        subst h
        have hch : childBytes (.element none c (elemName c) attrs []) = [] := rfl
        rw [hch]
        exact Multiset.zero_le _

/-- C4 witness: the amended containment at the concrete Open span
`c4WitInput`, whose parse succeeds with one child (`c4WitElem`). -/
theorem c4_children_bytes_witness :
    Multiset.ofList (childBytes c4WitElem) ≤
      Multiset.ofList (bodySpanOf c4WitInput) :=
  c4_children_bytes (c4WitInput.length + 1) c4WitInput c4WitElem rfl
